import Mathlib

/-!
Verification of the date-inference core of `canvas_full_sync.py`.

The embedding below follows the Python source closely:

* Calendar dates (`datetime` values at day granularity) are modelled as
  proleptic-Gregorian ordinals (`Int`), exactly CPython `date.toordinal`:
  ordinal 1 is 0001-01-01, `weekday o = (o + 6) % 7` with Monday = 0, and
  `d + timedelta(days=k)` is `d + k`.
* `datetime.strptime(s, "%Y-%m-%d")` is modelled by `strptimeYmd`, following
  the regex CPython compiles for that format (`\d\d\d\d` for the year,
  the ordered alternations `1[0-2]|0[1-9]|[1-9]` for the month and
  `3[01]|[12]\d|0[1-9]|[1-9]` for the day) together with the requirement
  that the whole string is consumed and that `datetime` construction
  validates the (year, month, day) triple.
* Raised exceptions are modelled by `Except.error`; `None` results by
  `Option.none`.  Character classes are the ASCII readings of the Python
  regex classes (the inputs of interest are ASCII).
* The process-global schedule `MY_SCHEDULE` and the `datetime.now()` values
  are passed as explicit parameters.
-/

/-! ### Character classes (ASCII models of the Python regex classes) -/

/-- ASCII model of the regex class `\d`. -/
def isDigitCh (c : Char) : Bool := c.isDigit

/-- ASCII model of `[a-z]` under `re.IGNORECASE`. -/
def isAlphaCh (c : Char) : Bool := c.isAlpha

/-- ASCII model of the regex class `\s` (Python string whitespace). -/
def isPySpace (c : Char) : Bool :=
  c = ' ' || c = '\t' || c = '\n' || c = '\r' || c = '\x0b' || c = '\x0c'

/-- ASCII model of the regex word class `\w`, used for `\b` boundaries. -/
def isWordCh (c : Char) : Bool := c.isAlphanum || c = '_'

/-- ASCII lower-casing, as applied by `re.IGNORECASE` and `str.lower`. -/
def lowerCh (c : Char) : Char := c.toLower

/-- Numeric value of an ASCII digit. -/
def digitVal (c : Char) : Nat := c.toNat - 48

/-- `int()` on a string of ASCII digits. -/
def natFromDigits (s : String) : Nat :=
  s.data.foldl (fun a c => a * 10 + digitVal c) 0

/-- First successful result of `f` over a list, in order (ordered
alternation of a backtracking regex engine). -/
def firstSome : List α → (α → Option β) → Option β
  | [], _ => none
  | x :: xs, f =>
    match f x with
    | some b => some b
    | none => firstSome xs f

/-- Case-insensitively strip the pattern `pat` from the front of `cs`,
returning the rest on success. -/
def stripCI : List Char → List Char → Option (List Char)
  | [], cs => some cs
  | _ :: _, [] => none
  | p :: ps, c :: cs => if lowerCh c = lowerCh p then stripCI ps cs else none

/-! ### Calendar arithmetic (CPython `datetime` model) -/

/-- Gregorian leap-year test, as in CPython `_is_leap`. -/
def isLeap (y : Nat) : Bool := y % 4 = 0 && (y % 100 ≠ 0 || y % 400 = 0)

/-- Number of days in month `m` of year `y` (0 for out-of-range months). -/
def daysInMonth (y m : Nat) : Nat :=
  match m with
  | 1 => 31 | 2 => if isLeap y then 29 else 28 | 3 => 31 | 4 => 30
  | 5 => 31 | 6 => 30 | 7 => 31 | 8 => 31 | 9 => 30 | 10 => 31
  | 11 => 30 | 12 => 31
  | _ => 0

/-- Days before January 1st of year `y`, as in CPython `_days_before_year`. -/
def days_before_year (y : Nat) : Nat :=
  (y - 1) * 365 + (y - 1) / 4 - (y - 1) / 100 + (y - 1) / 400

/-- Days in year `y` preceding the first of month `m`. -/
def days_before_month (y m : Nat) : Nat :=
  ((List.range (m - 1)).map (fun i => daysInMonth y (i + 1))).sum

/-- CPython `date.toordinal()` for a (valid) year/month/day triple. -/
def ymdToOrdinal (y m d : Nat) : Int :=
  ((days_before_year y + days_before_month y m + d : Nat) : Int)

/-- The `datetime(year, month, day)` constructor: `some` ordinal for a valid
calendar date, `none` for the `ValueError` cases (day out of range for the
month, month out of range, year outside `MINYEAR..MAXYEAR`). -/
def mkDatetime (y m d : Nat) : Option Int :=
  if 1 ≤ y ∧ y ≤ 9999 ∧ 1 ≤ m ∧ m ≤ 12 ∧ 1 ≤ d ∧ d ≤ daysInMonth y m then
    some (ymdToOrdinal y m d)
  else none

/-- CPython `date.weekday()`: Monday = 0 .. Sunday = 6. -/
def pyWeekday (o : Int) : Int := (o + 6) % 7

/-! ### `datetime.strptime(s, "%Y-%m-%d")` -/

/-- The `%Y` field: exactly four ASCII digits. -/
def parse4Digits (cs : List Char) : Option (Nat × List Char) :=
  match cs with
  | a :: b :: c :: d :: rest =>
    if isDigitCh a && isDigitCh b && isDigitCh c && isDigitCh d then
      some (digitVal a * 1000 + digitVal b * 100 + digitVal c * 10 + digitVal d, rest)
    else none
  | _ => none

/-- Candidate parses of the `%m` field, in the alternation order of the
CPython pattern `1[0-2]|0[1-9]|[1-9]`. -/
def monthCands (cs : List Char) : List (Nat × List Char) :=
  match cs with
  | c1 :: c2 :: rest =>
    (if c1 = '1' && '0' ≤ c2 && c2 ≤ '2' then [(10 + digitVal c2, rest)] else []) ++
    (if c1 = '0' && '1' ≤ c2 && c2 ≤ '9' then [(digitVal c2, rest)] else []) ++
    (if '1' ≤ c1 && c1 ≤ '9' then [(digitVal c1, c2 :: rest)] else [])
  | [c1] => if '1' ≤ c1 && c1 ≤ '9' then [(digitVal c1, [])] else []
  | [] => []

/-- Candidate parses of the `%d` field, in the alternation order of the
CPython pattern `3[01]|[12]\d|0[1-9]|[1-9]`. -/
def dayCands (cs : List Char) : List (Nat × List Char) :=
  match cs with
  | c1 :: c2 :: rest =>
    (if c1 = '3' && '0' ≤ c2 && c2 ≤ '1' then [(30 + digitVal c2, rest)] else []) ++
    (if ('1' ≤ c1 && c1 ≤ '2') && isDigitCh c2 then [(digitVal c1 * 10 + digitVal c2, rest)] else []) ++
    (if c1 = '0' && '1' ≤ c2 && c2 ≤ '9' then [(digitVal c2, rest)] else []) ++
    (if '1' ≤ c1 && c1 ≤ '9' then [(digitVal c1, c2 :: rest)] else [])
  | [c1] => if '1' ≤ c1 && c1 ≤ '9' then [(digitVal c1, [])] else []
  | [] => []

/-- Match `"%Y-%m-%d"` against the whole character list (backtracking over
the month/day alternations; the entire input must be consumed, mirroring
the `unconverted data remains` check of `_strptime`). -/
def parseYmdAll (cs : List Char) : Option (Nat × Nat × Nat) :=
  match parse4Digits cs with
  | none => none
  | some (y, r1) =>
    match r1 with
    | '-' :: r2 =>
      firstSome (monthCands r2) (fun mc =>
        match mc.2 with
        | '-' :: r4 =>
          firstSome (dayCands r4) (fun dc =>
            if dc.2 = [] then some (y, mc.1, dc.1) else none)
        | _ => none)
    | _ => none

/-- `datetime.strptime(s, "%Y-%m-%d")` on a character list: the match above
followed by `datetime` construction; `error` models the raised `ValueError`. -/
def strptimeYmd (cs : List Char) : Except Unit Int :=
  match parseYmdAll cs with
  | none => .error ()
  | some (y, m, d) =>
    match mkDatetime y m d with
    | some o => .ok o
    | none => .error ()

/-- `datetime.strptime(default_date_str[:10], "%Y-%m-%d")` (line 59). -/
def strptimeYmd10 (s : String) : Except Unit Int := strptimeYmd (s.data.take 10)

/-! ### The schedule (`load_schedule`, `MY_SCHEDULE`, `get_next_class_date`) -/

/-- A well-typed schedule value: the expected shape
`{"CS 363": [1, 3], "MATH 205": [0, 2, 4]}`, in dict iteration order. -/
abbrev Schedule : Type := List (String × List Int)

/-- Python `needle in hay` on strings (substring containment). -/
def isPrefixList : List Char → List Char → Bool
  | [], _ => true
  | _ :: _, [] => false
  | p :: ps, c :: cs => p = c && isPrefixList ps cs

/-- Python substring test `needle in hay`. -/
def hasSubList (needle : List Char) : List Char → Bool
  | [] => needle.isEmpty
  | c :: t => isPrefixList needle (c :: t) || hasSubList needle t

/-- Lines 31-35: the first schedule key (in iteration order) that is a
substring of `course_code`. -/
def firstMatchKey : Schedule → String → Option String
  | [], _ => none
  | (k, _) :: rest, course =>
    if hasSubList k.data course.data then some k else firstMatchKey rest course

/-- `MY_SCHEDULE[base_code]`: dict lookup on the typed schedule. -/
def lookupDays : Schedule → String → List Int
  | [], _ => []
  | (k, v) :: rest, key => if k = key then v else lookupDays rest key

/-- Lines 44-48: scan `class_days` for the first day strictly after
`posted_day_idx`; `0` when none is found. -/
def scanAhead : List Int → Int → Int
  | [], _ => 0
  | d :: rest, idx => if idx < d then d - idx else scanAhead rest idx

/-- Lines 40-53 of `get_next_class_date`, after the course key has been
resolved: sort the days, scan for the next strictly-later weekday, wrap to
`(7 - posted_day_idx) + class_days[0]` when the scan yields 0.  The
`class_days[0]` access raises `IndexError` on an empty list (`error`). -/
def daysPhase (dayList : List Int) (posted : Int) : Except Unit (Option Int) :=
  if scanAhead (List.insertionSort (fun a b => a ≤ b) dayList) (pyWeekday posted) = 0 then
    match List.insertionSort (fun a b => a ≤ b) dayList with
    | [] => .error ()
    | c :: _ => .ok (some (posted + ((7 - pyWeekday posted) + c)))
  else
    .ok (some (posted + scanAhead (List.insertionSort (fun a b => a ≤ b) dayList) (pyWeekday posted)))

/-- Lines 23-53: `get_next_class_date(course_code, posted_date_obj)` with the
global `MY_SCHEDULE` passed explicitly.  Note `if not base_code` is a Python
falsiness test, so an empty-string key is rejected like a missing match. -/
def get_next_class_date (sched : Schedule) (course_code : String) (posted : Int) :
    Except Unit (Option Int) :=
  if sched = [] then .ok none
  else
    match firstMatchKey sched course_code with
    | none => .ok none
    | some base_code =>
      if base_code = "" then .ok none
      else daysPhase (lookupDays sched base_code) posted

/-! ### The relative-phrase rule (line 63) -/

/-- After the literal `next`: `\s+` followed by one of the alternatives
`class`, `lecture`, `session` (the keywords start with letters, so maximal
munch on the whitespace is exact). -/
def nextClassTail (cs : List Char) : Option (List Char) :=
  if (cs.takeWhile isPySpace).isEmpty then none
  else
    let r := cs.dropWhile isPySpace
    match stripCI "class".data r with
    | some r2 => some r2
    | none =>
      match stripCI "lecture".data r with
      | some r2 => some r2
      | none => stripCI "session".data r

/-- `\b` after the matched group: end of input or a non-word character. -/
def boundaryOK : List Char → Bool
  | [] => true
  | c :: _ => !isWordCh c

/-- One anchored attempt of `(next\s+class|next\s+lecture|next\s+session)\b`. -/
def matchNextAt (cs : List Char) : Bool :=
  match stripCI "next".data cs with
  | none => false
  | some r =>
    match nextClassTail r with
    | none => false
    | some r2 => boundaryOK r2

/-- `re.search(r"\b(next\s+class|next\s+lecture|next\s+session)\b", text,
re.IGNORECASE)` as a Boolean; `prevWord` tracks whether the character before
the current position is a word character (for the leading `\b`). -/
def searchNextAux (prevWord : Bool) : List Char → Bool
  | [] => false
  | c :: r => (!prevWord && matchNextAt (c :: r)) || searchNextAux (isWordCh c) r

/-- Truthiness of the line-63 `re.search`. -/
def hasNextClass (cs : List Char) : Bool := searchNextAux false cs

/-! ### The explicit-date rule (lines 70-99) -/

/-- The twelve month abbreviations of the alternation
`(Jan|Feb|Mar|Apr|May|Jun|Jul|Aug|Sep|Oct|Nov|Dec)`. -/
def monthNames : List (List Char) :=
  (["Jan", "Feb", "Mar", "Apr", "May", "Jun",
    "Jul", "Aug", "Sep", "Oct", "Nov", "Dec"]).map String.data

/-- Anchored, case-insensitive match of the month-name alternation; the
captured group is the text as it appears in the input. -/
def matchMonthAt (cs : List Char) : Option (String × List Char) :=
  firstSome monthNames (fun name =>
    match stripCI name cs with
    | some r => some (String.mk (cs.take 3), r)
    | none => none)

/-- The optional trailing `(\d{4})?` group: captures exactly the next four
characters when they are all digits. -/
def grabYear (cs : List Char) : Option String :=
  match cs with
  | a :: b :: c :: d :: _ =>
    if isDigitCh a && isDigitCh b && isDigitCh c && isDigitCh d then
      some (String.mk [a, b, c, d])
    else none
  | _ => none

/-- The common pattern tail `\s*,?\s*(\d{4})?` (whitespace, one optional
comma and digits are pairwise disjoint, so maximal munch is exact). -/
def tailYear (cs : List Char) : Option String :=
  let r1 := cs.dropWhile isPySpace
  let r2 := match r1 with | ',' :: t => t | _ => r1
  grabYear (r2.dropWhile isPySpace)

/-- The optional ordinal suffix `(?:st|nd|rd|th)?`: the four alternatives
start with pairwise distinct letters, so at most one can strip, and skipping
a strippable suffix can never enable a later part of either pattern
(whitespace or digits must follow). -/
def dropOrdSuffix (cs : List Char) : List Char :=
  match stripCI "st".data cs with
  | some r => r
  | none =>
    match stripCI "nd".data cs with
    | some r => r
    | none =>
      match stripCI "rd".data cs with
      | some r => r
      | none =>
        match stripCI "th".data cs with
        | some r => r
        | none => cs

/-- Pattern 1 after the day digits and optional suffix:
`\s+(Month)[a-z]*\s*,?\s*(\d{4})?`. -/
def p1Core (day : Nat) (cs : List Char) : Option (Nat × String × Option String) :=
  if (cs.takeWhile isPySpace).isEmpty then none
  else
    match matchMonthAt (cs.dropWhile isPySpace) with
    | none => none
    | some (mstr, r) => some (day, mstr, tailYear (r.dropWhile isAlphaCh))

/-- Anchored attempt of pattern 1
`(\d{1,2})(?:st|nd|rd|th)?\s+(Month)[a-z]*\s*,?\s*(\d{4})?`: the greedy
`\d{1,2}` tries two digits first and backtracks to one. -/
def matchP1At (cs : List Char) : Option (Nat × String × Option String) :=
  match cs with
  | [] => none
  | c1 :: rest =>
    if isDigitCh c1 then
      match rest with
      | c2 :: rest2 =>
        if isDigitCh c2 then
          match p1Core (digitVal c1 * 10 + digitVal c2) (dropOrdSuffix rest2) with
          | some r => some r
          | none => p1Core (digitVal c1) (dropOrdSuffix rest)
        else p1Core (digitVal c1) (dropOrdSuffix rest)
      | [] => p1Core (digitVal c1) (dropOrdSuffix [])
    else none

/-- `re.search` for pattern 1: leftmost matching start position. -/
def searchP1 : List Char → Option (Nat × String × Option String)
  | [] => none
  | c :: r =>
    match matchP1At (c :: r) with
    | some m => some m
    | none => searchP1 r

/-- Anchored attempt of pattern 2
`(Month)[a-z]*\s+(\d{1,2})(?:st|nd|rd|th)?\s*,?\s*(\d{4})?`. -/
def matchP2At (cs : List Char) : Option (String × Nat × Option String) :=
  match matchMonthAt cs with
  | none => none
  | some (mstr, r1) =>
    let r2 := r1.dropWhile isAlphaCh
    if (r2.takeWhile isPySpace).isEmpty then none
    else
      match r2.dropWhile isPySpace with
      | [] => none
      | c1 :: rest =>
        if isDigitCh c1 then
          match rest with
          | c2 :: rest2 =>
            if isDigitCh c2 then
              some (mstr, digitVal c1 * 10 + digitVal c2, tailYear (dropOrdSuffix rest2))
            else some (mstr, digitVal c1, tailYear (dropOrdSuffix rest))
          | [] => some (mstr, digitVal c1, tailYear (dropOrdSuffix []))
        else none

/-- `re.search` for pattern 2: leftmost matching start position. -/
def searchP2 : List Char → Option (String × Nat × Option String)
  | [] => none
  | c :: r =>
    match matchP2At (c :: r) with
    | some m => some m
    | none => searchP2 r

/-- Lines 77-83: `match1` wins over `match2`; the groups are normalised to
`(day, month string, optional year string)`. -/
def extractMatch (cs : List Char) : Option (Nat × String × Option String) :=
  match searchP1 cs with
  | some m => some m
  | none =>
    match searchP2 cs with
    | some (mstr, day, ystr) => some (day, mstr, ystr)
    | none => none

/-- Lines 85-89: the fixed month table, keyed by `month_str.lower()[:3]`. -/
def months_lookup (mstr : String) : Option Nat :=
  let key := String.mk ((mstr.data.map lowerCh).take 3)
  firstSome
    [("jan", 1), ("feb", 2), ("mar", 3), ("apr", 4), ("may", 5), ("jun", 6),
     ("jul", 7), ("aug", 8), ("sep", 9), ("oct", 10), ("nov", 11), ("dec", 12)]
    (fun kv => if kv.1 = key then some kv.2 else none)

/-- Lines 91-97: explicit year when captured, otherwise the new-academic-year
heuristic on the current month/year. -/
def inferYear (currentYear nowMonth month : Nat) (ystr : Option String) : Nat :=
  match ystr with
  | some ys => natFromDigits ys
  | none =>
    if month < nowMonth ∧ nowMonth - month > 6 then currentYear + 1 else currentYear

/-- Lines 85-99 plus the `except` at 101-102: month lookup, year inference
and `datetime` construction; every failure yields `posted_date_obj`. -/
def buildDate (currentYear nowMonth : Nat) (posted : Int) (day : Nat)
    (mstr : String) (ystr : Option String) : Int :=
  (months_lookup mstr).elim posted (fun month =>
    (mkDatetime (inferYear currentYear nowMonth month ystr) month day).elim posted id)

/-- Lines 70-102: the whole explicit-date rule, a total function thanks to
the enclosing `try`/`except` that returns the fallback date. -/
def explicit_date_logic (currentYear nowMonth : Nat) (text : List Char) (posted : Int) : Int :=
  match extractMatch text with
  | none => posted
  | some (day, mstr, ystr) => buildDate currentYear nowMonth posted day mstr ystr

/-! ### `find_date_in_text` (lines 55-102) -/

/-- Lines 55-102: `find_date_in_text(text, default_date_str, course_code)`
with the global schedule and the `datetime.now()` month/year as parameters.
Line 57 parses the **whole** `default_date_str` (no `[:10]` truncation);
line 59 parses only the first ten characters.  Exceptions escaping the
function are `error`. -/
def find_date_in_text (sched : Schedule) (currentYear nowMonth : Nat)
    (text default_date_str course_code : String) : Except Unit Int :=
  if text = "" then strptimeYmd default_date_str.data
  else
    match strptimeYmd10 default_date_str with
    | .error e => .error e
    | .ok posted_date_obj =>
      if hasNextClass text.data then
        match get_next_class_date sched course_code posted_date_obj with
        | .error e => .error e
        | .ok (some d) => .ok d
        | .ok none => .ok (explicit_date_logic currentYear nowMonth text.data posted_date_obj)
      else .ok (explicit_date_logic currentYear nowMonth text.data posted_date_obj)

/-! ### `load_schedule` (lines 9-19) over decoded JSON values -/

/-- Decoded Python/JSON values, the possible results of `json.loads`. -/
inductive PyVal where
  | pnull : PyVal
  | pbool : Bool → PyVal
  | pint : Int → PyVal
  | pstr : String → PyVal
  | plist : List PyVal → PyVal
  | pdict : List (String × PyVal) → PyVal

/-- Lines 9-19: `load_schedule()` as a function of the `json.loads` outcome
on the `MY_TIMETABLE` text (`none` models a raised `JSONDecodeError`; an
absent variable defaults to `"{}"`, which decodes to `pdict []`).  Only the
decode error is caught; any successfully decoded value is returned as-is.
The warning print is a side effect outside the model. -/
def load_schedule (decoded : Option PyVal) : PyVal :=
  match decoded with
  | some v => v
  | none => .pdict []

/-- A decoded value that is a list of weekday indices. -/
def isWeekdayList : PyVal → Bool
  | .plist xs =>
    xs.all (fun x => match x with | .pint n => decide (0 ≤ n) && decide (n ≤ 6) | _ => false)
  | _ => false

/-- A decoded value that is a mapping from course keys to weekday lists
(the shape the specification calls a valid schedule configuration). -/
def isScheduleMap : PyVal → Bool
  | .pdict kvs => kvs.all (fun kv => isWeekdayList kv.2)
  | _ => false

/-- Reading a decoded mapping as a typed `Schedule`. -/
def asWeekdayInts (v : PyVal) : Option (List Int) :=
  match v with
  | .plist xs => xs.mapM (fun x => match x with | .pint n => some n | _ => none)
  | _ => none

/-- Reading a decoded value as a typed `Schedule`. -/
def asSchedule (v : PyVal) : Option Schedule :=
  match v with
  | .pdict kvs => kvs.mapM (fun kv => (asWeekdayInts kv.2).map (fun l => (kv.1, l)))
  | _ => none

/-! ### Claim-side formulations (from the wording of the specification) -/

/-- Smallest element of an integer list. -/
def minOfList : List Int → Option Int
  | [] => none
  | x :: xs =>
    match minOfList xs with
    | none => some x
    | some m => some (min x m)

/-- The smallest stored weekday strictly greater than `refDay`, when any. -/
def minGreater (days : List Int) (refDay : Int) : Option Int :=
  minOfList (days.filter (fun d => decide (refDay < d)))

/-- The offset in days described by the specification: the distance to the
smallest weekday strictly greater than `refDay` when one exists, otherwise
the wrap-around `(7 - refDay) + smallest weekday`. -/
def claimOffset (days : List Int) (refDay : Int) : Int :=
  match minGreater days refDay with
  | some d => d - refDay
  | none => (7 - refDay) + (match minOfList days with | some m => m | none => 0)

/-! ### Helper lemmas -/

/-- `pyWeekday` always lands in `[0, 6]`. -/
theorem pyWeekday_bounds (o : Int) : 0 ≤ pyWeekday o ∧ pyWeekday o < 7 := by
  unfold pyWeekday; omega

/-- `minOfList` is `none` exactly on the empty list. -/
theorem minOfList_eq_none_iff (l : List Int) : minOfList l = none ↔ l = [] := by
  cases l with
  | nil => simp [minOfList]
  | cons x xs =>
    simp only [minOfList]
    cases minOfList xs <;> simp

/-- `minOfList` returns a member that is a lower bound. -/
theorem minOfList_least (l : List Int) (m : Int) (h : minOfList l = some m) :
    m ∈ l ∧ ∀ y ∈ l, m ≤ y := by
  induction l generalizing m with
  | nil => simp [minOfList] at h
  | cons x xs ih =>
    simp only [minOfList] at h
    cases hxs : minOfList xs with
    | none =>
      rw [hxs] at h
      cases h
      have hx : xs = [] := (minOfList_eq_none_iff xs).mp hxs
      subst hx
      simp
    | some m2 =>
      rw [hxs] at h
      cases h
      obtain ⟨h1, h2⟩ := ih m2 hxs
      constructor
      · rcases min_choice x m2 with hc | hc <;> rw [hc]
        · exact List.mem_cons_self _ _
        · exact List.mem_cons_of_mem _ h1
      · intro y hy
        rcases List.mem_cons.mp hy with rfl | hy2
        · exact min_le_left _ _
        · exact le_trans (min_le_right _ _) (h2 y hy2)

/-- A member that is a lower bound is the `minOfList`. -/
theorem minOfList_eq_some (l : List Int) (m : Int) (hm : m ∈ l) (hle : ∀ y ∈ l, m ≤ y) :
    minOfList l = some m := by
  cases h : minOfList l with
  | none =>
    rw [minOfList_eq_none_iff] at h
    subst h
    simp at hm
  | some m2 =>
    obtain ⟨h1, h2⟩ := minOfList_least l m2 h
    rw [le_antisymm (h2 m hm) (hle m2 h1)]

/-- The line 44-48 scan yields 0 when no day is strictly later. -/
theorem scanAhead_zero_of (l : List Int) (r : Int) (h : ∀ d ∈ l, d ≤ r) :
    scanAhead l r = 0 := by
  induction l with
  | nil => rfl
  | cons x xs ih =>
    have hx : x ≤ r := h x (List.mem_cons_self _ _)
    simp only [scanAhead]
    rw [if_neg (by omega)]
    exact ih (fun d hd => h d (List.mem_cons_of_mem _ hd))

/-- Conversely, a zero scan means no stored day is strictly later. -/
theorem scanAhead_zero_forall (l : List Int) (r : Int) (h : scanAhead l r = 0) :
    ∀ d ∈ l, d ≤ r := by
  induction l with
  | nil => simp
  | cons x xs ih =>
    simp only [scanAhead] at h
    by_cases hx : r < x
    · rw [if_pos hx] at h
      omega
    · rw [if_neg hx] at h
      intro d hd
      rcases List.mem_cons.mp hd with rfl | hd2
      · omega
      · exact ih h d hd2

/-- A non-zero scan is the distance to some strictly later stored day. -/
theorem scanAhead_found (l : List Int) (r : Int) (h : scanAhead l r ≠ 0) :
    ∃ d ∈ l, r < d ∧ scanAhead l r = d - r := by
  induction l with
  | nil => simp [scanAhead] at h
  | cons x xs ih =>
    simp only [scanAhead] at h ⊢
    by_cases hx : r < x
    · rw [if_pos hx]
      exact ⟨x, List.mem_cons_self _ _, hx, rfl⟩
    · rw [if_neg hx] at h ⊢
      obtain ⟨d, hd, h1, h2⟩ := ih h
      exact ⟨d, List.mem_cons_of_mem _ hd, h1, h2⟩

/-- On a sorted list, the scan stops at the least strictly-later day. -/
theorem scanAhead_sorted_min (l : List Int) (r : Int)
    (hs : List.Sorted (fun a b : Int => a ≤ b) l) (d : Int) (hd : d ∈ l) (hr : r < d) :
    ∃ d0, d0 ∈ l ∧ r < d0 ∧ scanAhead l r = d0 - r ∧ ∀ y ∈ l, r < y → d0 ≤ y := by
  induction l with
  | nil => simp at hd
  | cons x xs ih =>
    rw [List.sorted_cons] at hs
    obtain ⟨hall, hs2⟩ := hs
    simp only [scanAhead]
    by_cases hx : r < x
    · refine ⟨x, List.mem_cons_self _ _, hx, by rw [if_pos hx], ?_⟩
      intro y hy _
      rcases List.mem_cons.mp hy with rfl | hy2
      · exact le_refl _
      · exact hall y hy2
    · rw [if_neg hx]
      have hdx : d ∈ xs := by
        rcases List.mem_cons.mp hd with rfl | h2
        · exact absurd hr hx
        · exact h2
      obtain ⟨d0, h1, h2, h3, h4⟩ := ih hs2 hdx
      refine ⟨d0, List.mem_cons_of_mem _ h1, h2, h3, ?_⟩
      intro y hy hry
      rcases List.mem_cons.mp hy with rfl | hy2
      · exact absurd hry hx
      · exact h4 y hy2 hry

/-- Filtering for strictly-later days of an all-earlier list is empty. -/
theorem filter_gt_nil (l : List Int) (r : Int) (h : ∀ d ∈ l, d ≤ r) :
    l.filter (fun d => decide (r < d)) = [] := by
  induction l with
  | nil => rfl
  | cons x xs ih =>
    have hx : decide (r < x) = false := by
      have := h x (List.mem_cons_self _ _)
      simp only [decide_eq_false_iff_not, not_lt]
      exact this
    simp only [List.filter, hx]
    exact ih (fun d hd => h d (List.mem_cons_of_mem _ hd))

/-- The sorted-scan computation of lines 40-53 equals the offset formula of
the specification (least strictly-later weekday, else wrap-around to the
smallest weekday). -/
theorem daysPhase_eq_claim (days : List Int) (r : Int) (hne : days ≠ []) :
    daysPhase days r = .ok (some (r + claimOffset days (pyWeekday r))) := by
  have hperm := List.perm_insertionSort (fun a b : Int => a ≤ b) days
  have hsort := List.sorted_insertionSort (fun a b : Int => a ≤ b) days
  set s := List.insertionSort (fun a b : Int => a ≤ b) days with hsdef
  unfold daysPhase
  rw [← hsdef]
  by_cases hex : ∃ d ∈ days, pyWeekday r < d
  · obtain ⟨d, hdm, hdlt⟩ := hex
    have hdm2 : d ∈ s := hperm.mem_iff.mpr hdm
    obtain ⟨d0, h1, h2, h3, h4⟩ := scanAhead_sorted_min s (pyWeekday r) hsort d hdm2 hdlt
    have hscanne : scanAhead s (pyWeekday r) ≠ 0 := by rw [h3]; omega
    rw [if_neg hscanne, h3]
    have hmg : minGreater days (pyWeekday r) = some d0 := by
      apply minOfList_eq_some
      · rw [List.mem_filter]
        exact ⟨hperm.mem_iff.mp h1, by simpa using h2⟩
      · intro y hy
        rw [List.mem_filter] at hy
        exact h4 y (hperm.mem_iff.mpr hy.1) (by simpa using hy.2)
    simp only [claimOffset, hmg]
  · push_neg at hex
    have hall : ∀ d ∈ s, d ≤ pyWeekday r := fun d hd => hex d (hperm.mem_iff.mp hd)
    have hzero : scanAhead s (pyWeekday r) = 0 := scanAhead_zero_of _ _ hall
    rw [if_pos hzero]
    have hsne : s ≠ [] := by
      intro h0
      apply hne
      rw [h0] at hperm
      exact hperm.symm.eq_nil
    cases hs2 : s with
    | nil => exact absurd hs2 hsne
    | cons c t =>
      have hcs : c ∈ s := by rw [hs2]; exact List.mem_cons_self c t
      have hcmem : c ∈ days := hperm.mem_iff.mp hcs
      have hcle : ∀ y ∈ days, c ≤ y := by
        intro y hy
        have hys : y ∈ s := hperm.mem_iff.mpr hy
        rw [hs2] at hys
        rcases List.mem_cons.mp hys with rfl | hy2
        · exact le_refl _
        · rw [hs2] at hsort
          exact (List.sorted_cons.mp hsort).1 y hy2
      have hmin : minOfList days = some c := minOfList_eq_some days c hcmem hcle
      have hmgnone : minGreater days (pyWeekday r) = none := by
        unfold minGreater
        rw [filter_gt_nil days _ hex]
        rfl
      simp only [claimOffset, hmgnone, hmin]

/-- The specified offset is at least one day: the answer is strictly after
the reference date. -/
theorem claimOffset_pos (days : List Int) (refDay : Int) (hne : days ≠ [])
    (hrange : ∀ d ∈ days, 0 ≤ d ∧ d ≤ 6) (hrd : 0 ≤ refDay ∧ refDay < 7) :
    1 ≤ claimOffset days refDay := by
  cases hmg : minGreater days refDay with
  | some d0 =>
    obtain ⟨h1, _⟩ := minOfList_least _ _ hmg
    rw [List.mem_filter] at h1
    have hlt : refDay < d0 := by simpa using h1.2
    simp only [claimOffset, hmg]
    omega
  | none =>
    cases hml : minOfList days with
    | none =>
      rw [minOfList_eq_none_iff] at hml
      exact absurd hml hne
    | some m =>
      obtain ⟨h1, _⟩ := minOfList_least _ _ hml
      have hm0 := (hrange m h1).1
      simp only [claimOffset, hmg, hml]
      omega

/-- Whenever lines 40-53 succeed with an answer, the answer is 1 to 7 days
after the reference date and falls on one of the stored weekdays. -/
theorem daysPhase_bounds (days : List Int) (r res : Int)
    (hrange : ∀ d ∈ days, 0 ≤ d ∧ d ≤ 6)
    (h : daysPhase days r = .ok (some res)) :
    1 ≤ res - r ∧ res - r ≤ 7 ∧ pyWeekday res ∈ days := by
  have hperm := List.perm_insertionSort (fun a b : Int => a ≤ b) days
  set s := List.insertionSort (fun a b : Int => a ≤ b) days with hsdef
  unfold daysPhase at h
  rw [← hsdef] at h
  by_cases hz : scanAhead s (pyWeekday r) = 0
  · rw [if_pos hz] at h
    cases hs2 : s with
    | nil =>
      rw [hs2] at h
      exact Except.noConfusion h
    | cons c t =>
      rw [hs2] at h
      have hres : r + ((7 - pyWeekday r) + c) = res := Option.some.inj (Except.ok.inj h)
      have hcs : c ∈ s := by rw [hs2]; exact List.mem_cons_self c t
      have hcmem : c ∈ days := hperm.mem_iff.mp hcs
      have hcle : c ≤ pyWeekday r := scanAhead_zero_forall s _ hz c hcs
      obtain ⟨hc0, hc6⟩ := hrange c hcmem
      have hrd := pyWeekday_bounds r
      refine ⟨by omega, by omega, ?_⟩
      have hwd : pyWeekday res = c := by
        unfold pyWeekday at *
        omega
      rw [hwd]
      exact hcmem
  · rw [if_neg hz] at h
    obtain ⟨d0, hd0, hlt, heq⟩ := scanAhead_found s _ hz
    rw [heq] at h
    have hres : r + (d0 - pyWeekday r) = res := Option.some.inj (Except.ok.inj h)
    have hd0days : d0 ∈ days := hperm.mem_iff.mp hd0
    obtain ⟨h0, h6⟩ := hrange d0 hd0days
    have hrd := pyWeekday_bounds r
    refine ⟨by omega, by omega, ?_⟩
    have hwd : pyWeekday res = d0 := by
      unfold pyWeekday at *
      omega
    rw [hwd]
    exact hd0days

/-- Every weekday produced by the dict lookup comes from some stored pair. -/
theorem lookupDays_sub (sched : Schedule) (key : String) (d : Int)
    (hd : d ∈ lookupDays sched key) : ∃ p ∈ sched, d ∈ p.2 := by
  induction sched with
  | nil => simp [lookupDays] at hd
  | cons kv rest ih =>
    obtain ⟨k, v⟩ := kv
    simp only [lookupDays] at hd
    by_cases hk : k = key
    · rw [if_pos hk] at hd
      exact ⟨(k, v), List.mem_cons_self _ _, hd⟩
    · rw [if_neg hk] at hd
      obtain ⟨p, hp, hdp⟩ := ih hd
      exact ⟨p, List.mem_cons_of_mem _ hp, hdp⟩

/-- With non-empty text, a parsable posted value and no next-class phrase,
`find_date_in_text` is the explicit-date rule. -/
theorem find_eval_explicit (sched : Schedule) (cy nm : Nat) (text pv course : String)
    (posted : Int) (hne : text ≠ "") (hpv : strptimeYmd10 pv = .ok posted)
    (hnc : hasNextClass text.data = false) :
    find_date_in_text sched cy nm text pv course =
      .ok (explicit_date_logic cy nm text.data posted) := by
  simp only [find_date_in_text, if_neg hne, hpv, hnc, Bool.false_eq_true, if_false]

/-- Evaluation of the explicit-date rule when the month resolves and the
date constructs. -/
theorem explicit_eval (cy nm : Nat) (text : List Char) (posted : Int)
    (day : Nat) (mstr : String) (ystr : Option String) (month : Nat) (o : Int)
    (hm : extractMatch text = some (day, mstr, ystr))
    (hl : months_lookup mstr = some month)
    (hk : mkDatetime (inferYear cy nm month ystr) month day = some o) :
    explicit_date_logic cy nm text posted = o := by
  simp only [explicit_date_logic, hm, buildDate, hl, Option.elim, hk, id]

/-- Evaluation of the explicit-date rule when `datetime` construction fails:
the fallback date is returned. -/
theorem explicit_fallback (cy nm : Nat) (text : List Char) (posted : Int)
    (day : Nat) (mstr : String) (ystr : Option String) (month : Nat)
    (hm : extractMatch text = some (day, mstr, ystr))
    (hl : months_lookup mstr = some month)
    (hk : mkDatetime (inferYear cy nm month ystr) month day = none) :
    explicit_date_logic cy nm text posted = posted := by
  simp only [explicit_date_logic, hm, buildDate, hl, Option.elim, hk]

/-! ### Claim theorems -/

/-- Claim C1: the totality claim fails on the code.  With empty `text` and a
valid `postedValue` that carries a timestamp suffix after its ten-character
date ("2024-01-03T00:00:00Z"), line 57 parses the whole string with
`strptime(..., "%Y-%m-%d")` (no `[:10]` truncation), which raises
`ValueError` (unconverted data remains) instead of returning a date. -/
theorem c1_totality_failing_eval :
    find_date_in_text [] 2025 10 "" "2024-01-03T00:00:00Z" "CS 363" = .error () := by
  rfl

/-- Claim C2: the fallback-identity claim fails on the code for the same
reason as C1.  With empty text, a postedValue that is exactly its ten
"YYYY-MM-DD" characters is returned as claimed, but any longer valid
postedValue makes line 57 raise `ValueError` instead of returning the date
of its first ten characters. -/
theorem c2_fallback_identity_eval :
    find_date_in_text [] 2024 5 "" "2024-01-03 00:00:00" "" = .error ()
    ∧ find_date_in_text [] 2024 5 "" "2024-01-03" "" = .ok (ymdToOrdinal 2024 1 3) := by
  exact ⟨rfl, rfl⟩

/-- Claim C3 counterexample: configuration text that decodes successfully
but not as a course-to-weekday-list mapping (for example the JSON text
"[1, 2]", decoding to a list) is returned by `load_schedule` as-is, not
replaced by the empty mapping. -/
theorem c3_counterexample :
    isScheduleMap (PyVal.plist [PyVal.pint 1, PyVal.pint 2]) = false
    ∧ load_schedule (some (PyVal.plist [PyVal.pint 1, PyVal.pint 2])) ≠ PyVal.pdict [] := by
  refine ⟨rfl, ?_⟩
  intro h
  exact PyVal.noConfusion h

/-- Claim C3 amended: only configuration text that fails to decode at all
(`JSONDecodeError`) is replaced by the empty mapping; construction never
fails, and on the empty index `get_next_class_date` answers `none` for
every course identifier and reference date. -/
theorem c3_amended_decode_error_empty :
    load_schedule none = PyVal.pdict []
    ∧ asSchedule (load_schedule none) = some []
    ∧ ∀ (course : String) (r : Int), get_next_class_date [] course r = .ok none := by
  exact ⟨rfl, rfl, fun _ _ => rfl⟩

/-- Claim C9 counterexample: with the stored (empty-string) course key ""
and identifier "CS 363-001 Fall 2024", a stored key IS a substring of the
identifier (it is the first match), yet `get_next_class_date` returns no
answer, because `if not base_code` treats the empty-string key as falsy;
the claim would have the answer computed from that key's weekday list. -/
theorem c9_counterexample :
    firstMatchKey [("", [0])] "CS 363-001 Fall 2024" = some ""
    ∧ get_next_class_date [("", [0])] "CS 363-001 Fall 2024" (ymdToOrdinal 2024 1 3) =
        .ok none := by
  exact ⟨rfl, rfl⟩

/-- Claim C9 amended: `get_next_class_date` selects the first stored key (in
iteration order) that is a Python substring of the course identifier; it
returns no answer when no stored key matches, or when the first matching
key is the empty string; otherwise the result is computed from that key's
weekday list.  Identifier "CS 363-001 Fall 2024" matches key "CS 363". -/
theorem c9_amended_selection (sched : Schedule) (course : String) (r : Int) :
    (firstMatchKey sched course = none → get_next_class_date sched course r = .ok none)
    ∧ (firstMatchKey sched course = some "" → get_next_class_date sched course r = .ok none)
    ∧ (∀ k, firstMatchKey sched course = some k → k ≠ "" →
        get_next_class_date sched course r = daysPhase (lookupDays sched k) r)
    ∧ firstMatchKey [("CS 363", [1, 3])] "CS 363-001 Fall 2024" = some "CS 363" := by
  refine ⟨?_, ?_, ?_, by decide⟩
  · intro h
    unfold get_next_class_date
    by_cases h0 : sched = []
    · rw [if_pos h0]
    · rw [if_neg h0]
      simp only [h]
  · intro h
    have h0 : sched ≠ [] := by
      intro h0
      rw [h0] at h
      exact Option.noConfusion h
    unfold get_next_class_date
    rw [if_neg h0]
    simp only [h, if_pos]
  · intro k hfk hk0
    have h0 : sched ≠ [] := by
      intro h0
      rw [h0] at hfk
      exact Option.noConfusion hfk
    unfold get_next_class_date
    rw [if_neg h0]
    simp only [hfk]
    rw [if_neg hk0]

/-- Claim C9 amended, witness: the concrete "CS 363" instance produces the
next class date (Wednesday 2024-01-03 to Thursday 2024-01-04). -/
theorem c9_amended_selection_witness :
    get_next_class_date [("CS 363", [1, 3])] "CS 363-001 Fall 2024" (ymdToOrdinal 2024 1 3) =
      .ok (some (ymdToOrdinal 2024 1 4)) := by
  have h := (c9_amended_selection [("CS 363", [1, 3])] "CS 363-001 Fall 2024"
    (ymdToOrdinal 2024 1 3)).2.2.1 "CS 363" (by decide) (by decide)
  rw [h]
  rfl

/-- Claim C4: for a matched course (non-empty key, non-empty stored weekday
list with indices in [0, 6]), the result is the reference date plus the
specified offset: the distance to the smallest stored weekday strictly
greater than the reference weekday when one exists, otherwise the
wrap-around `(7 - refDay) + smallest stored weekday`; the result is always
strictly after the reference date, even when the reference day itself is a
class day. -/
theorem c4_offset_algorithm (sched : Schedule) (course : String) (r : Int)
    (k : String) (days : List Int)
    (hk : firstMatchKey sched course = some k) (hk0 : k ≠ "")
    (hd : lookupDays sched k = days) (hne : days ≠ [])
    (hrange : ∀ d ∈ days, 0 ≤ d ∧ d ≤ 6) :
    get_next_class_date sched course r =
      .ok (some (r + claimOffset days (pyWeekday r)))
    ∧ r < r + claimOffset days (pyWeekday r) := by
  have hsne : sched ≠ [] := by
    intro h0
    rw [h0] at hk
    exact Option.noConfusion hk
  constructor
  · unfold get_next_class_date
    rw [if_neg hsne]
    simp only [hk]
    rw [if_neg hk0, hd]
    exact daysPhase_eq_claim days r hne
  · have h1 := claimOffset_pos days (pyWeekday r) hne hrange (pyWeekday_bounds r)
    omega

/-- Claim C4, witness: schedule {"CS 363": [1, 3]}, reference Friday
2024-01-05 (weekday 4): no stored weekday exceeds 4, so the offset wraps to
(7 - 4) + 1 = 4, giving Tuesday 2024-01-09. -/
theorem c4_offset_algorithm_witness :
    get_next_class_date [("CS 363", [1, 3])] "CS 363-001 Fall 2024" (ymdToOrdinal 2024 1 5) =
      .ok (some (ymdToOrdinal 2024 1 9)) := by
  have h := c4_offset_algorithm [("CS 363", [1, 3])] "CS 363-001 Fall 2024"
    (ymdToOrdinal 2024 1 5) "CS 363" [1, 3] (by decide) (by decide) (by decide) (by decide)
    (by decide)
  rw [h.1]
  rfl

/-- Claim C5: when the text matches the next-class phrase, the schedule rule
has priority: if `get_next_class_date` answers a date, that date is the
result (any explicit date in the text is ignored); if it answers `none`,
resolution falls through to the explicit-date rule. -/
theorem c5_rule_priority (sched : Schedule) (cy nm : Nat) (text pv course : String)
    (posted : Int) (hne : text ≠ "") (hnc : hasNextClass text.data = true)
    (hpv : strptimeYmd10 pv = .ok posted) :
    (∀ d : Int, get_next_class_date sched course posted = .ok (some d) →
        find_date_in_text sched cy nm text pv course = .ok d)
    ∧ (get_next_class_date sched course posted = .ok none →
        find_date_in_text sched cy nm text pv course =
          .ok (explicit_date_logic cy nm text.data posted)) := by
  constructor
  · intro d hgd
    simp only [find_date_in_text, if_neg hne, hpv, hnc, if_true, hgd]
  · intro hgd
    simp only [find_date_in_text, if_neg hne, hpv, hnc, if_true, hgd]

/-- Claim C5, witness: text containing both "next class" and the explicit
date "5 Oct 2024" resolves to the next scheduled class (2024-01-04), not to
the explicit date. -/
theorem c5_rule_priority_witness :
    find_date_in_text [("CS 363", [1, 3])] 2024 1 "Quiz next class; due 5 Oct 2024"
      "2024-01-03T08:00:00Z" "CS 363-001" = .ok (ymdToOrdinal 2024 1 4) := by
  have h := (c5_rule_priority [("CS 363", [1, 3])] 2024 1 "Quiz next class; due 5 Oct 2024"
    "2024-01-03T08:00:00Z" "CS 363-001" (ymdToOrdinal 2024 1 3) (by decide) (by decide)
    (by rfl)).1
  exact h (ymdToOrdinal 2024 1 4) (by rfl)

/-- Claim C10: whenever `get_next_class_date` answers a date under a
schedule whose weekday indices all lie in [0, 6], the answer is between 1
and 7 days after the reference date, and its weekday index is one of the
matched course's configured weekday indices. -/
theorem c10_answer_bounds (sched : Schedule) (course : String) (r res : Int)
    (hrange : ∀ p ∈ sched, ∀ d ∈ p.2, 0 ≤ d ∧ d ≤ 6)
    (hres : get_next_class_date sched course r = .ok (some res)) :
    (1 ≤ res - r ∧ res - r ≤ 7)
    ∧ ∃ k, firstMatchKey sched course = some k ∧ pyWeekday res ∈ lookupDays sched k := by
  have h0 : sched ≠ [] := by
    intro h
    rw [h] at hres
    simp only [get_next_class_date, if_pos] at hres
    exact Option.noConfusion (Except.ok.inj hres)
  unfold get_next_class_date at hres
  rw [if_neg h0] at hres
  cases hfk : firstMatchKey sched course with
  | none =>
    rw [hfk] at hres
    exact Option.noConfusion (Except.ok.inj hres)
  | some k =>
    simp only [hfk] at hres
    by_cases hk0 : k = ""
    · rw [if_pos hk0] at hres
      exact Option.noConfusion (Except.ok.inj hres)
    · rw [if_neg hk0] at hres
      have hr2 : ∀ d ∈ lookupDays sched k, 0 ≤ d ∧ d ≤ 6 := by
        intro d hd
        obtain ⟨p, hp, hdp⟩ := lookupDays_sub sched k d hd
        exact hrange p hp d hdp
      obtain ⟨b1, b2, b3⟩ := daysPhase_bounds (lookupDays sched k) r res hr2 hres
      exact ⟨⟨b1, b2⟩, k, rfl, b3⟩

/-- Claim C10, witness: schedule {"MATH 205": [0, 2, 4]} and reference
Wednesday 2024-01-03 give Friday 2024-01-05, 2 days later, whose weekday
index 4 is configured. -/
theorem c10_answer_bounds_witness :
    (1 ≤ ymdToOrdinal 2024 1 5 - ymdToOrdinal 2024 1 3
      ∧ ymdToOrdinal 2024 1 5 - ymdToOrdinal 2024 1 3 ≤ 7)
    ∧ ∃ k, firstMatchKey [("MATH 205", [0, 2, 4])] "MATH 205-001" = some k
        ∧ pyWeekday (ymdToOrdinal 2024 1 5) ∈ lookupDays [("MATH 205", [0, 2, 4])] k := by
  exact c10_answer_bounds [("MATH 205", [0, 2, 4])] "MATH 205-001"
    (ymdToOrdinal 2024 1 3) (ymdToOrdinal 2024 1 5) (by decide) (by rfl)

/-- Claim C6: when the explicit-date rule matches a day and month with no
explicit year, the inferred year is `currentYear + 1` exactly when
`month < currentMonth` and `currentMonth - month > 6`, and `currentYear`
otherwise. -/
theorem c6_year_inference (sched : Schedule) (cy nm : Nat) (text pv course : String)
    (posted : Int) (day month : Nat) (mstr : String) (o : Int)
    (hne : text ≠ "") (hnc : hasNextClass text.data = false)
    (hpv : strptimeYmd10 pv = .ok posted)
    (hm : extractMatch text.data = some (day, mstr, none))
    (hl : months_lookup mstr = some month)
    (hk : mkDatetime (if month < nm ∧ nm - month > 6 then cy + 1 else cy) month day = some o) :
    find_date_in_text sched cy nm text pv course = .ok o := by
  rw [find_eval_explicit sched cy nm text pv course posted hne hpv hnc]
  exact congrArg Except.ok (explicit_eval cy nm text.data posted day mstr none month o hm hl hk)

/-- Claim C6, witness: with current month 11 and current year 2024,
"Meet on 2 Mar" infers 2025 (gap 8 > 6) and "Meet on 2 Sep" infers 2024
(gap 2). -/
theorem c6_year_inference_witness :
    find_date_in_text [] 2024 11 "Meet on 2 Mar" "2024-11-20" "" = .ok (ymdToOrdinal 2025 3 2)
    ∧ find_date_in_text [] 2024 11 "Meet on 2 Sep" "2024-11-20" "" =
        .ok (ymdToOrdinal 2024 9 2) := by
  constructor
  · exact c6_year_inference [] 2024 11 "Meet on 2 Mar" "2024-11-20" ""
      (ymdToOrdinal 2024 11 20) 2 3 "Mar" (ymdToOrdinal 2025 3 2)
      (by decide) (by decide) (by rfl) (by decide) (by rfl) (by rfl)
  · exact c6_year_inference [] 2024 11 "Meet on 2 Sep" "2024-11-20" ""
      (ymdToOrdinal 2024 11 20) 2 9 "Sep" (ymdToOrdinal 2024 9 2)
      (by decide) (by decide) (by rfl) (by decide) (by rfl) (by rfl)

/-- Claim C7: with an explicit year present, both surface patterns
round-trip to the written date for every valid posted value, course
identifier, schedule and current month/year: "Due 3rd Oct, 2024" (pattern
A, day before month) and "Due Oct 3rd 2024" (pattern B, month before day)
both resolve to 2024-10-03. -/
theorem c7_explicit_roundtrips (sched : Schedule) (cy nm : Nat) (pv course : String)
    (posted : Int) (hpv : strptimeYmd10 pv = .ok posted) :
    find_date_in_text sched cy nm "Due 3rd Oct, 2024" pv course =
      .ok (ymdToOrdinal 2024 10 3)
    ∧ find_date_in_text sched cy nm "Due Oct 3rd 2024" pv course =
      .ok (ymdToOrdinal 2024 10 3) := by
  constructor
  · rw [find_eval_explicit sched cy nm "Due 3rd Oct, 2024" pv course posted (by decide) hpv
      (by decide)]
    exact congrArg Except.ok (explicit_eval cy nm _ posted 3 "Oct" (some "2024") 10
      (ymdToOrdinal 2024 10 3) (by decide) (by rfl) (by rfl))
  · rw [find_eval_explicit sched cy nm "Due Oct 3rd 2024" pv course posted (by decide) hpv
      (by decide)]
    exact congrArg Except.ok (explicit_eval cy nm _ posted 3 "Oct" (some "2024") 10
      (ymdToOrdinal 2024 10 3) (by decide) (by rfl) (by rfl))

/-- Claim C7, witness: the round-trips at a concrete posted value, course,
schedule and current date. -/
theorem c7_explicit_roundtrips_witness :
    find_date_in_text [("CS 363", [1, 3])] 2024 1 "Due 3rd Oct, 2024" "2024-01-03T08:00:00Z"
      "CS 363-001" = .ok (ymdToOrdinal 2024 10 3)
    ∧ find_date_in_text [("CS 363", [1, 3])] 2024 1 "Due Oct 3rd 2024" "2024-01-03T08:00:00Z"
      "CS 363-001" = .ok (ymdToOrdinal 2024 10 3) := by
  exact c7_explicit_roundtrips [("CS 363", [1, 3])] 2024 1 "2024-01-03T08:00:00Z" "CS 363-001"
    (ymdToOrdinal 2024 1 3) (by rfl)

/-- Claim C8: when the explicit-date match yields a (year, month, day)
combination that is not a valid calendar date, the `except` clause returns
the fallback date parsed from the first ten characters of the posted value,
and no exception escapes. -/
theorem c8_invalid_date_fallback (sched : Schedule) (cy nm : Nat) (text pv course : String)
    (posted : Int) (day month : Nat) (mstr : String) (ystr : Option String)
    (hne : text ≠ "") (hnc : hasNextClass text.data = false)
    (hpv : strptimeYmd10 pv = .ok posted)
    (hm : extractMatch text.data = some (day, mstr, ystr))
    (hl : months_lookup mstr = some month)
    (hk : mkDatetime (inferYear cy nm month ystr) month day = none) :
    find_date_in_text sched cy nm text pv course = .ok posted := by
  rw [find_eval_explicit sched cy nm text pv course posted hne hpv hnc]
  exact congrArg Except.ok (explicit_fallback cy nm text.data posted day mstr ystr month hm hl hk)

/-- Claim C8, witness: "Due 31 Apr 2024" matches day 31 of April, an
invalid date, so the posted date 2024-01-15 is returned. -/
theorem c8_invalid_date_fallback_witness :
    find_date_in_text [] 2024 6 "Due 31 Apr 2024" "2024-01-15" "" =
      .ok (ymdToOrdinal 2024 1 15) := by
  exact c8_invalid_date_fallback [] 2024 6 "Due 31 Apr 2024" "2024-01-15" ""
    (ymdToOrdinal 2024 1 15) 31 4 "Apr" (some "2024")
    (by decide) (by decide) (by rfl) (by decide) (by rfl) (by rfl)
